import Mathlib

/-!
Verification of the swimple service-worker caching library.

The development shallowly embeds the library's pure logic:
* `src/helpers.js` — header access, TTL parsing, freshness predicates,
  invalidation-path inference, scope matching, eviction;
* `index.js` (`createHandleRequest` / `handleRequest`) — the dispatch
  logic and the three caching strategies.

JavaScript strings are modelled as `List Char`; `Date.now()` is an
explicit `now : Nat` parameter (milliseconds since the epoch); the
injected network function is an explicit `NetResult` argument; the
Cache-API store for a single request key is an `Option JSResponse`,
and the whole store (for invalidation and sweeps) a list of
URL-keyed entries, with `ignoreSearch` deletion matching by pathname
exactly as the repository's own Cache model implements it.
-/

namespace Swimple

/-- JavaScript strings, modelled as lists of characters. -/
abbrev JSString := List Char

/-- Shorthand: embed a Lean string literal as a `JSString`. -/
def js (s : String) : JSString := s.data

/-- Lowercase every character: model of `String.prototype.toLowerCase`
restricted to the ASCII header names the library uses. -/
def lowerStr (s : JSString) : JSString := s.map Char.toLower

/-- Header constants from `src/headers.js`. -/
def CACHE_STRATEGY_HEADER : JSString := js "X-SW-Cache-Strategy"

/-- Header constant `X-SW-Cache-TTL-Seconds` from `src/headers.js`. -/
def CACHE_TTL_HEADER : JSString := js "X-SW-Cache-TTL-Seconds"

/-- Header constant `X-SW-Cache-Stale-TTL-Seconds` from `src/headers.js`. -/
def CACHE_STALE_TTL_HEADER : JSString := js "X-SW-Cache-Stale-TTL-Seconds"

/-- Header constant `X-SW-Cache-Invalidate` from `src/headers.js`. -/
def CACHE_INVALIDATE_HEADER : JSString := js "X-SW-Cache-Invalidate"

/-- Header constant `X-SW-Cache-Clear` from `src/headers.js`. -/
def CACHE_CLEAR_HEADER : JSString := js "X-SW-Cache-Clear"

/-- Header constant `x-sw-cache-timestamp` from `src/headers.js`. -/
def CACHE_TIMESTAMP_HEADER : JSString := js "x-sw-cache-timestamp"

/-- `getHeader` from `src/helpers.js`: first value whose name matches
case-insensitively, else `null` (modelled as `none`). -/
def getHeader : List (JSString × JSString) → JSString → Option JSString
  | [], _ => none
  | (k, v) :: rest, name =>
      if lowerStr k = lowerStr name then some v else getHeader rest name

/-- JavaScript `value.split(", ")`: split at every (leftmost,
non-overlapping) occurrence of a comma followed by a space. -/
def jsSplitCommaSpace : List Char → List (List Char)
  | [] => [[]]
  | ',' :: ' ' :: rest => [] :: jsSplitCommaSpace rest
  | c :: rest =>
      match jsSplitCommaSpace rest with
      | [] => [[c]]
      | p :: ps => (c :: p) :: ps

/-- `getAllHeaders` from `src/helpers.js`: collect every value whose name
matches case-insensitively, splitting each on a comma+space. -/
def getAllHeaders : List (JSString × JSString) → JSString → List JSString
  | [], _ => []
  | (k, v) :: rest, name =>
      (if lowerStr k = lowerStr name then jsSplitCommaSpace v else [])
        ++ getAllHeaders rest name

/-- Does the string contain the two-character sequence comma+space? -/
def containsCommaSpace : List Char → Bool
  | [] => false
  | [_] => false
  | c :: d :: rest => (c == ',' && d == ' ') || containsCommaSpace (d :: rest)

/-- Rejoin split pieces with a comma+space (inverse of the split). -/
def joinCommaSpace : List (List Char) → List Char
  | [] => []
  | [p] => p
  | p :: ps => p ++ ',' :: ' ' :: joinCommaSpace ps

/-- Numeric value of a decimal digit character. -/
def digitVal (c : Char) : Nat := c.toNat - 48

/-- Left-to-right accumulation of a digit string into a number. -/
def digitsToValAll : List Char → Nat → Nat
  | [], acc => acc
  | c :: rest, acc => digitsToValAll rest (acc * 10 + digitVal c)

/-- The leading run of decimal digits, as `parseInt` consumes it
(it stops at the first non-digit). -/
def takeDigits (s : List Char) : List Char := s.takeWhile (fun c => c.isDigit)

/-- Parse the leading digit run; `none` models `NaN` (no digits at all). -/
def parseDigits (s : List Char) : Option Nat :=
  match takeDigits s with
  | [] => none
  | ds => some (digitsToValAll ds 0)

/-- JavaScript `parseInt(s, 10)`: skip leading whitespace, optional sign,
then the leading digit run; `none` models `NaN`. -/
def jsParseInt (s : List Char) : Option Int :=
  let t := s.dropWhile (fun c => c.isWhitespace)
  match t with
  | '-' :: rest => (parseDigits rest).map (fun n => -(n : Int))
  | '+' :: rest => (parseDigits rest).map (fun n => (n : Int))
  | _ => (parseDigits t).map (fun n => (n : Int))

/-- The decimal digit character for `n < 10`. -/
def digitChar : Nat → Char
  | 0 => '0'
  | 1 => '1'
  | 2 => '2'
  | 3 => '3'
  | 4 => '4'
  | 5 => '5'
  | 6 => '6'
  | 7 => '7'
  | 8 => '8'
  | _ => '9'

/-- Decimal rendering of a natural number onto an accumulator:
model of JavaScript `Number.prototype.toString` for the integers the
library stamps into the timestamp header. -/
def natDigitsAux (n : Nat) (acc : List Char) : List Char :=
  if h : n < 10 then digitChar n :: acc
  else natDigitsAux (n / 10) (digitChar (n % 10) :: acc)
decreasing_by exact Nat.div_lt_self (by omega) (by omega)

/-- Decimal rendering of a natural number. -/
def natDigits (n : Nat) : List Char := natDigitsAux n []

/-- HTTP responses as the library observes them: a body payload,
a numeric status and a header list. -/
structure JSResponse where
  body : JSString
  status : Nat
  headers : List (JSString × JSString)
deriving DecidableEq

/-- `Response.ok` of the Fetch API: the status is in the 2xx range. -/
def respOk (r : JSResponse) : Bool := decide (200 ≤ r.status ∧ r.status ≤ 299)

/-- `getCacheTimestamp` from `src/helpers.js`. The source's
`if (!timestampHeader)` treats a missing header and an empty value alike
as absent, and a `parseInt` failure (`NaN`) yields `null`. -/
def getCacheTimestamp (r : JSResponse) : Option Int :=
  match getHeader r.headers CACHE_TIMESTAMP_HEADER with
  | none => none
  | some v => if v = [] then none else jsParseInt v

/-- `isFresh` from `src/helpers.js`; the `now` argument makes the source's
call to `Date.now()` explicit. `ttl` is in seconds, the age in ms. -/
def isFresh (now : Nat) (r : JSResponse) (ttl : Int) : Bool :=
  match getCacheTimestamp r with
  | none => false
  | some ts => decide ((now : Int) - ts < ttl * 1000)

/-- `isStale` from `src/helpers.js`: false without a stale TTL, else the
age is at least `ttl` seconds and below `staleTTL` seconds. -/
def isStale (now : Nat) (r : JSResponse) (ttl : Int) (staleTTL : Option Int) : Bool :=
  match staleTTL with
  | none => false
  | some sttl =>
      match getCacheTimestamp r with
      | none => false
      | some ts => decide (ttl * 1000 ≤ (now : Int) - ts ∧ (now : Int) - ts < sttl * 1000)

/-- `isOlderThanMaxAge` from `src/helpers.js`: retention expiry, with the
boundary age counting as expired. -/
def isOlderThanMaxAge (now : Nat) (r : JSResponse) (maxAgeSeconds : Int) : Bool :=
  match getCacheTimestamp r with
  | none => false
  | some ts => decide (maxAgeSeconds * 1000 ≤ (now : Int) - ts)

/-- `Headers.set`: remove every pair whose name matches case-insensitively
and add the new pair. -/
def headersSet (hs : List (JSString × JSString)) (name v : JSString) :
    List (JSString × JSString) :=
  hs.filter (fun kv => decide (lowerStr kv.1 ≠ lowerStr name)) ++ [(name, v)]

/-- `addTimestamp` from `src/helpers.js`: a new response with the same body
and status whose timestamp header is set to the current time. -/
def addTimestamp (now : Nat) (r : JSResponse) : JSResponse :=
  { r with headers := headersSet r.headers CACHE_TIMESTAMP_HEADER (natDigits now) }

/-- `getTTL` from `src/helpers.js`; `none` models `null`, "caching
disabled". A missing header falls back to the default when positive; a
present header is `parseInt`-ed and any `NaN` or non-positive value
disables caching. -/
def getTTL (headers : List (JSString × JSString)) (defaultTTL : Int) : Option Int :=
  match getHeader headers CACHE_TTL_HEADER with
  | none => if 0 < defaultTTL then some defaultTTL else none
  | some v =>
      match jsParseInt v with
      | none => none
      | some ttl => if ttl ≤ 0 then none else some ttl

/-- `getStaleTTL` from `src/helpers.js`: the same rules as `getTTL` with
its own header and default. -/
def getStaleTTL (headers : List (JSString × JSString)) (defaultStaleTTL : Int) : Option Int :=
  match getHeader headers CACHE_STALE_TTL_HEADER with
  | none => if 0 < defaultStaleTTL then some defaultStaleTTL else none
  | some v =>
      match jsParseInt v with
      | none => none
      | some sttl => if sttl ≤ 0 then none else some sttl

/-- The closed strategy set. -/
inductive Strategy where
  | cacheFirst
  | networkFirst
  | staleWhileRevalidate
deriving DecidableEq

/-- The strategy named by a header value, if valid. -/
def strategyOfString (s : JSString) : Option Strategy :=
  if s = js "cache-first" then some Strategy.cacheFirst
  else if s = js "network-first" then some Strategy.networkFirst
  else if s = js "stale-while-revalidate" then some Strategy.staleWhileRevalidate
  else none

/-- `getStrategy` from `src/helpers.js`: a valid strategy header wins,
anything else falls back to the default. -/
def getStrategy (headers : List (JSString × JSString)) (defaultStrategy : Strategy) : Strategy :=
  match getHeader headers CACHE_STRATEGY_HEADER with
  | none => defaultStrategy
  | some v =>
      match strategyOfString v with
      | some s => s
      | none => defaultStrategy

/-- Does the string start with the given pattern (ordinal, case-sensitive),
as JavaScript `String.prototype.startsWith`? -/
def listStartsWith : JSString → JSString → Bool
  | _, [] => true
  | [], _ :: _ => false
  | c :: cs, p :: ps => c == p && listStartsWith cs ps

/-- Parsed URLs as the library consumes them: `new URL(u).origin`,
`.pathname` and `.search`. The full URL string is their concatenation. -/
structure Url where
  origin : JSString
  pathname : JSString
  search : JSString
deriving DecidableEq

/-- `URL.prototype.toString` for the parsed model. -/
def urlString (u : Url) : JSString := u.origin ++ u.pathname ++ u.search

/-- `matchesScope` from `src/helpers.js`: an empty scope list matches iff
the default TTL is positive, else any scope entry must be a pathname
prefix of the URL. -/
def matchesScope (u : Url) (scope : List JSString) (defaultTTLSeconds : Int) : Bool :=
  if scope = [] then decide (0 < defaultTTLSeconds)
  else scope.any (fun p => listStartsWith u.pathname p)

/-- Index of the last occurrence of `c`, if any. -/
def lastIndexOfAux (c : Char) : List Char → Option Nat
  | [] => none
  | x :: xs =>
      match lastIndexOfAux c xs with
      | some i => some (i + 1)
      | none => if x = c then some 0 else none

/-- JavaScript `String.prototype.lastIndexOf` for a single character:
the index of its last occurrence, `-1` when absent. -/
def lastIndexOfChar (c : Char) (s : List Char) : Int :=
  match lastIndexOfAux c s with
  | none => -1
  | some i => (i : Int)

/-- `getInferredInvalidationPaths` from `src/helpers.js`: the exact URL,
plus — when the pathname has a final segment preceded by a non-initial
slash — the parent collection URL. `new URL(parentPath, origin)` is
modelled as `origin ++ parentPath`, its value for the root-relative
parent paths this function produces. -/
def getInferredInvalidationPaths (u : Url) : List JSString :=
  if 0 < lastIndexOfChar '/' u.pathname then
    if u.pathname.take (lastIndexOfChar '/' u.pathname).toNat = [] then [urlString u]
    else [urlString u, u.origin ++ u.pathname.take (lastIndexOfChar '/' u.pathname).toNat]
  else [urlString u]

/-- Tail of the WHATWG scheme grammar: letters, digits, `+`, `-`, `.`
terminated by a colon. -/
def schemeTail : List Char → Bool
  | [] => false
  | c :: rest =>
      if c = ':' then true
      else (c.isAlphanum || c == '+' || c == '-' || c == '.') && schemeTail rest

/-- Does `new URL(s)` succeed without a base, i.e. does `s` start with a
scheme? (An ASCII letter, then scheme characters, then a colon.) -/
def isAbsoluteUrl : List Char → Bool
  | [] => false
  | c :: rest => c.isAlpha && schemeTail rest

/-- The normalization step of `handleRequest` (lines 112–129): a path
that already parses as a URL is kept, anything else is resolved against
the mutating request's origin (modelled for root-relative paths). -/
def resolvePath (origin : JSString) (p : JSString) : JSString :=
  if isAbsoluteUrl p then p else origin ++ p

/-- Per-handler configuration after `createHandleRequest` applied its
defaults. Logging and the cache name do not affect the verified logic. -/
structure Config where
  scope : List JSString
  defaultStrategy : Strategy
  defaultTTLSeconds : Int
  defaultStaleTTLSeconds : Int
  maxCacheAgeSeconds : Int
  inferInvalidation : Bool
deriving DecidableEq

/-- The request data `handleRequest` reads from the fetch event. -/
structure RequestModel where
  url : Url
  method : JSString
  headers : List (JSString × JSString)
deriving DecidableEq

/-- Is the method in the mutation list of `handleRequest` line 93? -/
def isMutationMethod (m : JSString) : Bool :=
  decide (m ∈ [js "POST", js "PATCH", js "PUT", js "DELETE"])

/-- The invalidation target set `handleRequest` (lines 101–131) passes to
`invalidateCache`: explicit headers if any, else the inferred paths, each
resolved to a full URL against the request's origin. -/
def computeInvalidationTargets (cfg : Config) (req : RequestModel)
    (invHeaders : List JSString) (isMutation : Bool) : List JSString :=
  (if invHeaders = [] ∧ cfg.inferInvalidation = true ∧ isMutation = true then
      invHeaders ++ getInferredInvalidationPaths req.url
    else invHeaders).map (resolvePath req.url.origin)

/-- What `handleRequest` decides to do with a request, before any store
or network I/O is performed. -/
inductive HandlerDecision where
  | notHandled
  | clearThenNetwork
  | invalidateThenNetwork (targets : List JSString)
  | dispatch (strategy : Strategy) (ttl : Int) (staleTTL : Option Int)
deriving DecidableEq

/-- The dispatch logic of `handleRequest` (lines 75–192): cache-clear
header, then invalidation, then the GET / same-origin / scope / TTL
guards, then strategy dispatch. The periodic-cleanup bookkeeping of
lines 165–175 is modelled separately by `fetchCounterStep`; it does not
influence the decision. -/
def handleRequestDecision (cfg : Config) (swOrigin : JSString) (req : RequestModel) :
    HandlerDecision :=
  if (getHeader req.headers CACHE_CLEAR_HEADER).isSome then .clearThenNetwork
  else if 0 < (getAllHeaders req.headers CACHE_INVALIDATE_HEADER).length ∨
      (cfg.inferInvalidation = true ∧ isMutationMethod req.method = true) then
    .invalidateThenNetwork (computeInvalidationTargets cfg req
      (getAllHeaders req.headers CACHE_INVALIDATE_HEADER) (isMutationMethod req.method))
  else if req.method ≠ js "GET" then .notHandled
  else if req.url.origin ≠ swOrigin then .notHandled
  else if matchesScope req.url cfg.scope cfg.defaultTTLSeconds = false ∧
      (getHeader req.headers CACHE_TTL_HEADER).isSome = false then .notHandled
  else
    match getTTL req.headers cfg.defaultTTLSeconds with
    | none => .notHandled
    | some t =>
        if t = 0 then .notHandled
        else
          .dispatch (getStrategy req.headers cfg.defaultStrategy) t
            (getStaleTTL req.headers cfg.defaultStaleTTLSeconds)

/-- Result of the injected network function: a response, or a thrown
error identified by an opaque code. -/
inductive NetResult where
  | resp (r : JSResponse)
  | err (e : Nat)
deriving DecidableEq

/-- What a strategy run delivers to the caller. -/
inductive ReqResult where
  | ok (r : JSResponse)
  | err (e : Nat)
deriving DecidableEq

/-- Per-request context of a strategy run: the clock and the resolved
TTLs (seconds). -/
structure StratCtx where
  now : Nat
  ttl : Int
  staleTTL : Option Int
  maxAge : Int
deriving DecidableEq

/-- Result of a strategy run: the delivered result, the cache entry for
the request key afterwards, and how many network calls were made. -/
structure StratOut where
  result : ReqResult
  cacheAfter : Option JSResponse
  netCalls : Nat
deriving DecidableEq

/-- The cache-first branch of `handleRequest` (lines 195–238): fresh hit
short-circuits; otherwise reactive retention cleanup, then network; a
2xx response is stored re-stamped; on a thrown fetch a stale entry (the
in-memory copy, even if the reactive cleanup just deleted it) is the
offline fallback, else the error is rethrown. -/
def cacheFirstBranch (ctx : StratCtx) (cached : Option JSResponse) (net : NetResult) :
    StratOut :=
  match cached with
  | some c =>
      if isFresh ctx.now c ctx.ttl then ⟨.ok c, some c, 0⟩
      else
        match net with
        | .err e =>
            if isStale ctx.now c ctx.ttl ctx.staleTTL then
              ⟨.ok c, if isOlderThanMaxAge ctx.now c ctx.maxAge then none else some c, 1⟩
            else ⟨.err e, if isOlderThanMaxAge ctx.now c ctx.maxAge then none else some c, 1⟩
        | .resp nr =>
            if respOk nr then ⟨.ok nr, some (addTimestamp ctx.now nr), 1⟩
            else ⟨.ok nr, if isOlderThanMaxAge ctx.now c ctx.maxAge then none else some c, 1⟩
  | none =>
      match net with
      | .err e => ⟨.err e, none, 1⟩
      | .resp nr =>
          if respOk nr then ⟨.ok nr, some (addTimestamp ctx.now nr), 1⟩
          else ⟨.ok nr, none, 1⟩

/-- The network-first branch of `handleRequest` (lines 241–277): network
first; a 2xx response is stored re-stamped; on a thrown fetch a
retention-expired entry is deleted and the error rethrown, a fresh or
stale entry is the offline fallback, else the error is rethrown. -/
def networkFirstBranch (ctx : StratCtx) (cached : Option JSResponse) (net : NetResult) :
    StratOut :=
  match net with
  | .resp nr =>
      if respOk nr then ⟨.ok nr, some (addTimestamp ctx.now nr), 1⟩
      else ⟨.ok nr, cached, 1⟩
  | .err e =>
      match cached with
      | some c =>
          if isOlderThanMaxAge ctx.now c ctx.maxAge then ⟨.err e, none, 1⟩
          else if isFresh ctx.now c ctx.ttl || isStale ctx.now c ctx.ttl ctx.staleTTL then
            ⟨.ok c, some c, 1⟩
          else ⟨.err e, some c, 1⟩
      | none => ⟨.err e, none, 1⟩

/-- Result of the stale-while-revalidate branch: besides the delivered
result and cache state, whether a detached background fetch was started. -/
structure SWROut where
  result : ReqResult
  cacheAfter : Option JSResponse
  syncNetCalls : Nat
  bgFetchTriggered : Bool
deriving DecidableEq

/-- The shared synchronous network tail of the stale-while-revalidate
branch (lines 322–337). -/
def swrNetworkPath (ctx : StratCtx) (base : Option JSResponse) (net : NetResult) : SWROut :=
  match net with
  | .err e => ⟨.err e, base, 1, false⟩
  | .resp nr =>
      if respOk nr then ⟨.ok nr, some (addTimestamp ctx.now nr), 1, false⟩
      else ⟨.ok nr, base, 1, false⟩

/-- The stale-while-revalidate branch of `handleRequest` (lines 280–339):
a retention-expired entry is deleted and the network path taken; a fresh
or stale entry is returned at once, a stale one also starting the
detached background fetch; otherwise the network path runs
synchronously. -/
def swrBranch (ctx : StratCtx) (cached : Option JSResponse) (net : NetResult) : SWROut :=
  match cached with
  | some c =>
      if isOlderThanMaxAge ctx.now c ctx.maxAge then swrNetworkPath ctx none net
      else if isFresh ctx.now c ctx.ttl || isStale ctx.now c ctx.ttl ctx.staleTTL then
        ⟨.ok c, some c, 0, isStale ctx.now c ctx.ttl ctx.staleTTL⟩
      else swrNetworkPath ctx (some c) net
  | none => swrNetworkPath ctx none net

/-- Settling of the detached background revalidation (lines 303–315):
a thrown fetch is swallowed, a 2xx response replaces the entry with a
fresh stamp, anything else leaves the cache alone. -/
def swrApplyBackground (bgNow : Nat) (cacheState : Option JSResponse) (bgNet : NetResult) :
    Option JSResponse :=
  match bgNet with
  | .err _ => cacheState
  | .resp nr => if respOk nr then some (addTimestamp bgNow nr) else cacheState

/-- The whole response store for one cache name, keyed by URL. -/
abbrev Store := List (Url × JSResponse)

/-- `cache.delete(url, ignoreSearch)` as the repository's own Cache model
(`tests/MockCache`) implements it: remove every entry whose pathname
equals the target's pathname, ignoring the query string. -/
def cacheDeleteIgnoreSearch (st : Store) (target : Url) : Store :=
  st.filter (fun kv => decide (kv.1.pathname ≠ target.pathname))

/-- `invalidateCache` from `src/helpers.js` applied to the store model:
one ignore-search delete per target URL. -/
def invalidateCache (st : Store) (targets : List Url) : Store :=
  targets.foldl cacheDeleteIgnoreSearch st

/-- `cleanupOldCacheEntries` from `src/helpers.js`: delete every entry
that is older than the retention bound. -/
def cleanupOldCacheEntries (now : Nat) (maxAgeSeconds : Int) (st : Store) : Store :=
  st.filter (fun kv => !isOlderThanMaxAge now kv.2 maxAgeSeconds)

/-- One step of the `fetchCounter` bookkeeping (`handleRequest` lines
165–175): increment; the sweep fires at 1 and at multiples of 100; after
a multiple-of-100 sweep the counter resets to 1. Returns the new counter
and whether the sweep fired. -/
def fetchCounterStep (c : Nat) : Nat × Bool :=
  let c1 := c + 1
  if c1 = 1 ∨ c1 % 100 = 0 then
    (if c1 % 100 = 0 then 1 else c1, true)
  else (c1, false)

/-- The counter value after `n` handled read requests (it starts at 0). -/
def counterAfter : Nat → Nat
  | 0 => 0
  | n + 1 => (fetchCounterStep (counterAfter n)).1

/-- Does the periodic sweep fire on the `n`-th handled read request
(1-indexed)? -/
def sweepFiresAt (n : Nat) : Bool := (fetchCounterStep (counterAfter (n - 1))).2

/-- Network calls the request path of `handleRequest` performs for a
decision: the clear and invalidation branches make exactly one fetch, a
not-handled request makes none, a dispatched strategy makes as many as
the strategy run reports. -/
def decisionNetCalls (d : HandlerDecision) (stratNetCalls : Nat) : Nat :=
  match d with
  | .notHandled => 0
  | .clearThenNetwork => 1
  | .invalidateThenNetwork _ => 1
  | .dispatch _ _ _ => stratNetCalls

/-- Does the request path of `handleRequest` touch the response store for
a decision? Only a not-handled request returns before any `caches` use. -/
def decisionTouchesStore : HandlerDecision → Bool
  | .notHandled => false
  | .clearThenNetwork => true
  | .invalidateThenNetwork _ => true
  | .dispatch _ _ _ => true

/-- A cached test entry: 200 response with the given body and raw
timestamp header value. -/
def mkEntry (body ts : String) : JSResponse :=
  ⟨js body, 200, [(CACHE_TIMESTAMP_HEADER, js ts)]⟩

/-- A concrete configuration: scope `/api/`, cache-first, the
`createHandleRequest` defaults 300 / 3600 / 7200, inference on. -/
def cfgW : Config := ⟨[js "/api/"], Strategy.cacheFirst, 300, 3600, 7200, true⟩

/-- A concrete in-scope GET request with a TTL directive of `0`. -/
def reqTTL0 : RequestModel :=
  ⟨⟨js "https://example.com", js "/api/users", []⟩, js "GET",
    [(CACHE_TTL_HEADER, js "0")]⟩

/-- A concrete in-scope GET request with a negative TTL directive. -/
def reqTTLneg : RequestModel :=
  ⟨⟨js "https://example.com", js "/api/users", []⟩, js "GET",
    [(CACHE_TTL_HEADER, js "-10")]⟩

/-- A concrete mutating request with no invalidation directives. -/
def reqMut : RequestModel :=
  ⟨⟨js "https://example.com", js "/api/users/123", []⟩, js "POST", []⟩

end Swimple

namespace Swimple

theorem digitChar_props (n : Nat) (h : n < 10) :
    (digitChar n).isDigit = true ∧ (digitChar n).isWhitespace = false ∧
      digitChar n ≠ '-' ∧ digitChar n ≠ '+' := by
  interval_cases n <;> refine ⟨by decide, by decide, by decide, by decide⟩

theorem digitChar_val (n : Nat) (h : n < 10) : digitVal (digitChar n) = n := by
  interval_cases n <;> decide

theorem natDigitsAux_lt (n : Nat) (acc : List Char) (h : n < 10) :
    natDigitsAux n acc = digitChar n :: acc := by
  rw [natDigitsAux]
  simp [h]

theorem natDigitsAux_ge (n : Nat) (acc : List Char) (h : ¬ n < 10) :
    natDigitsAux n acc = natDigitsAux (n / 10) (digitChar (n % 10) :: acc) := by
  rw [natDigitsAux]
  simp [h]

theorem natDigitsAux_eq_append (n : Nat) (acc : List Char) :
    natDigitsAux n acc = natDigits n ++ acc := by
  induction n using Nat.strong_induction_on generalizing acc with
  | _ n ih =>
    by_cases h : n < 10
    · rw [natDigitsAux_lt n acc h, natDigits, natDigitsAux_lt n [] h]
      rfl
    · rw [natDigitsAux_ge n acc h, natDigits, natDigitsAux_ge n [] h,
          ih (n / 10) (Nat.div_lt_self (by omega) (by omega)),
          ih (n / 10) (Nat.div_lt_self (by omega) (by omega))]
      simp

theorem natDigitsAux_ne_nil (n : Nat) (acc : List Char) : natDigitsAux n acc ≠ [] := by
  induction n using Nat.strong_induction_on generalizing acc with
  | _ n ih =>
    by_cases h : n < 10
    · rw [natDigitsAux_lt n acc h]
      simp
    · rw [natDigitsAux_ge n acc h]
      exact ih (n / 10) (Nat.div_lt_self (by omega) (by omega)) _

theorem natDigits_ne_nil (n : Nat) : natDigits n ≠ [] := natDigitsAux_ne_nil n []

theorem natDigits_props (n : Nat) :
    ∀ c ∈ natDigits n,
      c.isDigit = true ∧ c.isWhitespace = false ∧ c ≠ '-' ∧ c ≠ '+' := by
  induction n using Nat.strong_induction_on with
  | _ n ih =>
    intro c hc
    rw [natDigits] at hc
    by_cases h : n < 10
    · rw [natDigitsAux_lt n [] h] at hc
      simp at hc
      subst hc
      exact digitChar_props n h
    · rw [natDigitsAux_ge n [] h, natDigitsAux_eq_append] at hc
      rcases List.mem_append.mp hc with h1 | h1
      · exact ih (n / 10) (Nat.div_lt_self (by omega) (by omega)) c h1
      · simp at h1
        subst h1
        exact digitChar_props (n % 10) (Nat.mod_lt n (by omega))

theorem digitsToValAll_append (xs ys : List Char) (a : Nat) :
    digitsToValAll (xs ++ ys) a = digitsToValAll ys (digitsToValAll xs a) := by
  induction xs generalizing a with
  | nil => rfl
  | cons c rest ih => simp [digitsToValAll, ih]

theorem digitsToValAll_natDigits (n : Nat) :
    digitsToValAll (natDigits n) 0 = n := by
  induction n using Nat.strong_induction_on with
  | _ n ih =>
    rw [natDigits]
    by_cases h : n < 10
    · rw [natDigitsAux_lt n [] h]
      simp only [digitsToValAll]
      rw [digitChar_val n h]
      omega
    · rw [natDigitsAux_ge n [] h, natDigitsAux_eq_append, digitsToValAll_append,
          ih (n / 10) (Nat.div_lt_self (by omega) (by omega))]
      simp only [digitsToValAll]
      rw [digitChar_val (n % 10) (Nat.mod_lt n (by omega))]
      omega

theorem takeDigits_natDigits (n : Nat) : takeDigits (natDigits n) = natDigits n := by
  rw [takeDigits, List.takeWhile_eq_self_iff]
  exact fun c hc => ((natDigits_props n) c hc).1

theorem parseDigits_natDigits (n : Nat) : parseDigits (natDigits n) = some n := by
  rw [parseDigits, takeDigits_natDigits]
  cases hnd : natDigits n with
  | nil => exact absurd hnd (natDigits_ne_nil n)
  | cons c rest =>
    show some (digitsToValAll (c :: rest) 0) = some n
    rw [← hnd, digitsToValAll_natDigits]

theorem dropWhile_whitespace_natDigits (n : Nat) :
    (natDigits n).dropWhile (fun c => c.isWhitespace) = natDigits n := by
  cases hnd : natDigits n with
  | nil => simp
  | cons c rest =>
    rw [List.dropWhile_cons]
    have hc := (natDigits_props n) c (by rw [hnd]; exact List.mem_cons_self c rest)
    simp [hc.2.1]

theorem jsParseInt_natDigits (n : Nat) : jsParseInt (natDigits n) = some (n : Int) := by
  rw [jsParseInt]
  rw [dropWhile_whitespace_natDigits]
  split
  · next rest heq =>
    have hc := (natDigits_props n) '-' (by rw [heq]; exact List.mem_cons_self _ rest)
    exact absurd rfl hc.2.2.1
  · next rest heq =>
    have hc := (natDigits_props n) '+' (by rw [heq]; exact List.mem_cons_self _ rest)
    exact absurd rfl hc.2.2.2
  · next =>
    rw [parseDigits_natDigits]
    rfl

theorem getHeader_headersSet_same (hs : List (JSString × JSString)) (name v : JSString) :
    getHeader (headersSet hs name v) name = some v := by
  induction hs with
  | nil => simp [headersSet, getHeader]
  | cons kv rest ih =>
    rw [headersSet, List.filter_cons]
    by_cases h : lowerStr kv.1 = lowerStr name
    · simpa [h, headersSet] using ih
    · rw [if_pos (by simpa using h)]
      rw [List.cons_append, getHeader]
      rw [if_neg h]
      simpa [headersSet] using ih

theorem getCacheTimestamp_addTimestamp (now : Nat) (r : JSResponse) :
    getCacheTimestamp (addTimestamp now r) = some (now : Int) := by
  rw [getCacheTimestamp, addTimestamp]
  show (match getHeader (headersSet r.headers CACHE_TIMESTAMP_HEADER (natDigits now))
      CACHE_TIMESTAMP_HEADER with
    | none => none
    | some v => if v = [] then none else jsParseInt v) = some (now : Int)
  rw [getHeader_headersSet_same]
  simp [natDigits_ne_nil now, jsParseInt_natDigits now]

theorem addTimestamp_body (now : Nat) (r : JSResponse) :
    (addTimestamp now r).body = r.body := rfl

theorem addTimestamp_status (now : Nat) (r : JSResponse) :
    (addTimestamp now r).status = r.status := rfl

theorem isFresh_addTimestamp (stamp now₂ : Nat) (r : JSResponse) (ttl : Int) :
    isFresh now₂ (addTimestamp stamp r) ttl
      = decide ((now₂ : Int) - (stamp : Int) < ttl * 1000) := by
  rw [isFresh, getCacheTimestamp_addTimestamp]

theorem isStale_false_of_isFresh (now : Nat) (r : JSResponse) (ttl : Int)
    (sttl : Option Int) (h : isFresh now r ttl = true) :
    isStale now r ttl sttl = false := by
  cases hts : getCacheTimestamp r with
  | none => simp [isFresh, hts] at h
  | some ts =>
    simp only [isFresh, hts, decide_eq_true_eq] at h
    cases sttl with
    | none => simp [isStale]
    | some s =>
      simp only [isStale, hts, decide_eq_false_iff_not]
      intro hc
      omega

/-- C5: `isFresh` holds iff the age is strictly below `ttl * 1000` ms (the
boundary age is not fresh); `isStale` holds iff a stale TTL is present and
the age lies in `[ttl*1000, staleTTL*1000)`, and is always false without a
stale TTL; and a missing or unparseable timestamp makes `isFresh`,
`isStale` and the retention predicate `isOlderThanMaxAge` all false. -/
theorem claim_C5_freshness_predicates (r : JSResponse) (ttl maxAge : Int)
    (sttl : Option Int) (now : Nat) :
    (isFresh now r ttl = true ↔
      ∃ ts, getCacheTimestamp r = some ts ∧ (now : Int) - ts < ttl * 1000) ∧
    (∀ ts, getCacheTimestamp r = some ts → (now : Int) - ts = ttl * 1000 →
      isFresh now r ttl = false) ∧
    (isStale now r ttl sttl = true ↔
      ∃ s ts, sttl = some s ∧ getCacheTimestamp r = some ts ∧
        ttl * 1000 ≤ (now : Int) - ts ∧ (now : Int) - ts < s * 1000) ∧
    (sttl = none → isStale now r ttl sttl = false) ∧
    (getCacheTimestamp r = none →
      isFresh now r ttl = false ∧ isStale now r ttl sttl = false ∧
        isOlderThanMaxAge now r maxAge = false) := by
  cases hts : getCacheTimestamp r with
  | none =>
    cases sttl <;> simp [isFresh, isStale, isOlderThanMaxAge, hts]
  | some ts =>
    cases sttl <;> simp [isFresh, isStale, isOlderThanMaxAge, hts] <;> omega

/-- C5 witness: evaluating the predicates at a concrete timestamped entry
and at a concrete entry without timestamp metadata. -/
theorem claim_C5_witness :
    isFresh 5000 ⟨js "b", 200, []⟩ 60 = false ∧
      isStale 5000 ⟨js "b", 200, []⟩ 60 (some 3600) = false ∧
      isOlderThanMaxAge 5000 ⟨js "b", 200, []⟩ 7200 = false :=
  (claim_C5_freshness_predicates ⟨js "b", 200, []⟩ 60 7200 (some 3600) 5000).2.2.2.2 rfl

theorem jsSplitCommaSpace_ne_nil (v : List Char) : jsSplitCommaSpace v ≠ [] := by
  induction v using jsSplitCommaSpace.induct with
  | case1 => simp [jsSplitCommaSpace.eq_1]
  | case2 rest ih => simp [jsSplitCommaSpace.eq_2]
  | case3 c rest hshape hnil ih => exact absurd hnil ih
  | case4 c rest hshape p ps hps ih =>
    rw [jsSplitCommaSpace.eq_3 c rest hshape, hps]
    simp

theorem joinCommaSpace_cons (p q : List Char) (l : List (List Char)) :
    joinCommaSpace (p :: q :: l) = p ++ ',' :: ' ' :: joinCommaSpace (q :: l) := rfl

theorem joinCommaSpace_jsSplit (v : List Char) :
    joinCommaSpace (jsSplitCommaSpace v) = v := by
  induction v using jsSplitCommaSpace.induct with
  | case1 => rfl
  | case2 rest ih =>
    rw [jsSplitCommaSpace.eq_2]
    cases hs : jsSplitCommaSpace rest with
    | nil => exact absurd hs (jsSplitCommaSpace_ne_nil rest)
    | cons q qs =>
      rw [joinCommaSpace_cons]
      rw [hs] at ih
      simp [ih]
  | case3 c rest hshape hnil ih => exact absurd hnil (jsSplitCommaSpace_ne_nil rest)
  | case4 c rest hshape p ps hps ih =>
    rw [jsSplitCommaSpace.eq_3 c rest hshape, hps]
    rw [hps] at ih
    cases ps with
    | nil =>
      show c :: p = c :: rest
      have : p = rest := ih
      rw [this]
    | cons q qs =>
      rw [joinCommaSpace_cons]
      rw [← ih]
      rw [joinCommaSpace_cons]
      simp

theorem jsSplit_first_piece (v p : List Char) (ps : List (List Char))
    (h : jsSplitCommaSpace v = p :: ps) : ∃ t, v = p ++ t := by
  have hj := joinCommaSpace_jsSplit v
  rw [h] at hj
  cases ps with
  | nil => exact ⟨[], by simpa using hj.symm⟩
  | cons q qs =>
    rw [joinCommaSpace_cons] at hj
    exact ⟨',' :: ' ' :: joinCommaSpace (q :: qs), hj.symm⟩

theorem mem_jsSplit_no_sep (v : List Char) :
    ∀ p ∈ jsSplitCommaSpace v, containsCommaSpace p = false := by
  induction v using jsSplitCommaSpace.induct with
  | case1 =>
    intro p hp
    rw [jsSplitCommaSpace.eq_1] at hp
    simp at hp
    rw [hp]
    rfl
  | case2 rest ih =>
    intro p hp
    rw [jsSplitCommaSpace.eq_2] at hp
    rcases List.mem_cons.mp hp with h1 | h1
    · rw [h1]; rfl
    · exact ih p h1
  | case3 c rest hshape hnil ih => exact absurd hnil (jsSplitCommaSpace_ne_nil rest)
  | case4 c rest hshape p ps hps ih =>
    intro q hq
    rw [jsSplitCommaSpace.eq_3 c rest hshape, hps] at hq
    rcases List.mem_cons.mp hq with h1 | h1
    · subst h1
      have hpns : containsCommaSpace p = false := ih p (by rw [hps]; exact List.mem_cons_self p ps)
      cases hp : p with
      | nil => rfl
      | cons d t =>
        show ((c == ',' && d == ' ') || containsCommaSpace (d :: t)) = false
        rw [hp] at hpns
        rw [hpns, Bool.or_false]
        by_cases hcd : c = ',' ∧ d = ' '
        · exfalso
          rcases jsSplit_first_piece rest p ps hps with ⟨t2, ht2⟩
          rw [hp] at ht2
          exact hshape (t ++ t2) hcd.1 (by rw [ht2, hcd.2]; rfl)
        · rcases Decidable.not_and_iff_or_not.mp hcd with h2 | h2 <;> simp [h2]
    · exact ih q (by rw [hps]; exact List.mem_cons_of_mem p h1)

theorem jsSplit_length_two_of_sep (v : List Char) (h : containsCommaSpace v = true) :
    2 ≤ (jsSplitCommaSpace v).length := by
  induction v using jsSplitCommaSpace.induct with
  | case1 => exact absurd h (by decide)
  | case2 rest ih =>
    rw [jsSplitCommaSpace.eq_2]
    have := jsSplitCommaSpace_ne_nil rest
    cases hs : jsSplitCommaSpace rest with
    | nil => exact absurd hs this
    | cons q qs => simp
  | case3 c rest hshape hnil ih => exact absurd hnil (jsSplitCommaSpace_ne_nil rest)
  | case4 c rest hshape p ps hps ih =>
    rw [jsSplitCommaSpace.eq_3 c rest hshape, hps]
    cases hr : rest with
    | nil =>
      subst hr
      have h2 : false = true := h
      exact absurd h2 (by decide)
    | cons d t =>
      subst hr
      have h2 : ((c == ',' && d == ' ') || containsCommaSpace (d :: t)) = true := h
      simp only [Bool.or_eq_true, Bool.and_eq_true, beq_iff_eq] at h2
      rcases h2 with ⟨hc, hd⟩ | h2
      · exact (hshape t hc (by rw [hd])).elim
      · have h3 := ih h2
        rw [hps] at h3
        simp only [List.length_cons] at h3 ⊢
        omega

/-- C10: a single invalidation header value is split at every comma+space
occurrence into separate targets. `getAllHeaders` on a lone header returns
exactly the split; the split pieces rejoin to the original value and none
of them contains a comma+space; hence a value containing a comma+space
yields at least two targets and can never itself be one of them — a
target path with an embedded comma+space is inexpressible as a single
directive. -/
theorem claim_C10_header_splitting (v : JSString) :
    getAllHeaders [(CACHE_INVALIDATE_HEADER, v)] CACHE_INVALIDATE_HEADER
        = jsSplitCommaSpace v ∧
    joinCommaSpace (jsSplitCommaSpace v) = v ∧
    (∀ p ∈ jsSplitCommaSpace v, containsCommaSpace p = false) ∧
    (containsCommaSpace v = true →
      2 ≤ (getAllHeaders [(CACHE_INVALIDATE_HEADER, v)] CACHE_INVALIDATE_HEADER).length ∧
      v ∉ getAllHeaders [(CACHE_INVALIDATE_HEADER, v)] CACHE_INVALIDATE_HEADER) := by
  have hall : getAllHeaders [(CACHE_INVALIDATE_HEADER, v)] CACHE_INVALIDATE_HEADER
      = jsSplitCommaSpace v := by
    simp [getAllHeaders]
  refine ⟨hall, joinCommaSpace_jsSplit v, mem_jsSplit_no_sep v, fun h => ⟨?_, ?_⟩⟩
  · rw [hall]
    exact jsSplit_length_two_of_sep v h
  · rw [hall]
    intro hmem
    have := mem_jsSplit_no_sep v v hmem
    rw [h] at this
    exact absurd this (by decide)

/-- C10 witness: the concrete value `/api/a, /api/b` denotes two targets
and is not itself a target. -/
theorem claim_C10_witness :
    2 ≤ (getAllHeaders [(CACHE_INVALIDATE_HEADER, js "/api/a, /api/b")]
          CACHE_INVALIDATE_HEADER).length ∧
    js "/api/a, /api/b" ∉ getAllHeaders [(CACHE_INVALIDATE_HEADER, js "/api/a, /api/b")]
          CACHE_INVALIDATE_HEADER :=
  (claim_C10_header_splitting (js "/api/a, /api/b")).2.2.2 (by decide)

/-- C7: applying one invalidation target deletes exactly the entries
whose URL pathname equals the target's pathname, ignoring the query
string: an entry survives the invalidation iff it was present and its
pathname differs from the target's. -/
theorem claim_C7_invalidation_by_pathname (st : Store) (target : Url) :
    ∀ kv : Url × JSResponse,
      kv ∈ invalidateCache st [target] ↔ kv ∈ st ∧ kv.1.pathname ≠ target.pathname := by
  intro kv
  show kv ∈ cacheDeleteIgnoreSearch st target ↔ _
  rw [cacheDeleteIgnoreSearch, List.mem_filter]
  simp

theorem fetchCounterStep_fst (c : Nat) :
    (fetchCounterStep c).1 = if (c + 1) % 100 = 0 then 1 else c + 1 := by
  show (if c + 1 = 1 ∨ (c + 1) % 100 = 0 then
      (if (c + 1) % 100 = 0 then 1 else c + 1, true) else (c + 1, false)).1 = _
  by_cases h : c + 1 = 1 ∨ (c + 1) % 100 = 0
  · rw [if_pos h]
  · rw [if_neg h]
    rw [if_neg (fun hc => h (Or.inr hc))]

theorem fetchCounterStep_fires (c : Nat) :
    (fetchCounterStep c).2 = true ↔ (c + 1 = 1 ∨ (c + 1) % 100 = 0) := by
  show (if c + 1 = 1 ∨ (c + 1) % 100 = 0 then
      (if (c + 1) % 100 = 0 then 1 else c + 1, true) else (c + 1, false)).2 = true ↔ _
  by_cases h : c + 1 = 1 ∨ (c + 1) % 100 = 0
  · rw [if_pos h]
    simpa using h
  · rw [if_neg h]
    simpa using h

theorem counterAfter_closed (n : Nat) :
    counterAfter n = if n = 0 then 0 else if n ≤ 99 then n else (n - 100) % 99 + 1 := by
  induction n with
  | zero => rfl
  | succ n ih =>
    show (fetchCounterStep (counterAfter n)).1 = _
    rw [fetchCounterStep_fst, ih]
    by_cases h0 : n = 0
    · subst h0
      norm_num
    · rw [if_neg h0]
      by_cases h99 : n ≤ 99
      · rw [if_pos h99]
        split_ifs <;> first | contradiction | omega
      · rw [if_neg h99]
        split_ifs <;> first | contradiction | omega

theorem sweepFiresAt_iff (n : Nat) (h : 1 ≤ n) :
    sweepFiresAt n = true ↔ n = 1 ∨ (100 ≤ n ∧ n % 99 = 1) := by
  show (fetchCounterStep (counterAfter (n - 1))).2 = true ↔ _
  rw [fetchCounterStep_fires, counterAfter_closed]
  by_cases h0 : n - 1 = 0
  · rw [if_pos h0]
    omega
  · rw [if_neg h0]
    by_cases h99 : n - 1 ≤ 99
    · rw [if_pos h99]
      omega
    · rw [if_neg h99]
      omega

/-- C9 (amended): the periodic sweep fires on the very first handled read
request and thereafter exactly when the counter reaches 100 — at requests
1, 100, 199, 298, …; after a multiple-of-100 sweep the counter is reset
to 1 (not 0), so the counter is 1 after every sweep and the next sweep
comes exactly 99 (not 100) requests later. A sweep deletes exactly the
entries whose age is at least `maxAgeSeconds * 1000` ms, the
exactly-at-bound age counting as expired (entries without a parseable
timestamp have no age and are kept). -/
theorem claim_C9_amended_periodic_sweep :
    (∀ n, 1 ≤ n → (sweepFiresAt n = true ↔ n = 1 ∨ (100 ≤ n ∧ n % 99 = 1))) ∧
    (∀ n, 1 ≤ n → sweepFiresAt n = true → counterAfter n = 1) ∧
    (∀ (now : Nat) (maxAge : Int) (st : Store) (kv : Url × JSResponse),
      kv ∈ cleanupOldCacheEntries now maxAge st ↔
        kv ∈ st ∧ isOlderThanMaxAge now kv.2 maxAge = false) ∧
    (∀ (now : Nat) (maxAge : Int) (r : JSResponse) (ts : Int),
      getCacheTimestamp r = some ts →
        (isOlderThanMaxAge now r maxAge = true ↔ maxAge * 1000 ≤ (now : Int) - ts)) := by
  refine ⟨fun n h => sweepFiresAt_iff n h, ?_, ?_, ?_⟩
  · intro n h1 hs
    have hchar := (sweepFiresAt_iff n h1).mp hs
    rw [counterAfter_closed]
    rcases hchar with h | h
    · subst h
      norm_num
    · rw [if_neg (by omega), if_neg (by omega)]
      omega
  · intro now maxAge st kv
    rw [cleanupOldCacheEntries, List.mem_filter]
    simp
  · intro now maxAge r ts hts
    simp [isOlderThanMaxAge, hts]

/-- C9 counterexample: the sweep at request 100 is followed by a sweep at
request 199, not at request 200 — after the reset-to-1, the next periodic
sweep comes 99 requests later, not the 100 the claim states. -/
theorem claim_C9_counterexample :
    sweepFiresAt 100 = true ∧ sweepFiresAt 199 = true ∧ sweepFiresAt 200 = false := by
  refine ⟨(sweepFiresAt_iff 100 (by omega)).mpr (by omega),
          (sweepFiresAt_iff 199 (by omega)).mpr (by omega), ?_⟩
  cases hb : sweepFiresAt 200
  · rfl
  · have := (sweepFiresAt_iff 200 (by omega)).mp hb
    omega

/-- C9 witness: the sweep does fire at request 298 and the counter is 1
right after it. -/
theorem claim_C9_witness :
    sweepFiresAt 298 = true ∧ counterAfter 298 = 1 := by
  have h1 := (claim_C9_amended_periodic_sweep.1 298 (by omega)).mpr (by omega)
  exact ⟨h1, claim_C9_amended_periodic_sweep.2.1 298 (by omega) h1⟩

theorem lastIndexOfAux_eq_none (c : Char) (s : List Char) (h : c ∉ s) :
    lastIndexOfAux c s = none := by
  induction s with
  | nil => rfl
  | cons x xs ih =>
    have hx : ¬ x = c := fun he => h (he ▸ List.mem_cons_self x xs)
    have hxs : c ∉ xs := fun hm => h (List.mem_cons_of_mem x hm)
    simp only [lastIndexOfAux, ih hxs]
    simp [hx]

theorem lastIndexOfAux_last_slash (pre seg : List Char) (hseg : '/' ∉ seg) :
    lastIndexOfAux '/' (pre ++ '/' :: seg) = some pre.length := by
  induction pre with
  | nil =>
    simp only [List.nil_append, lastIndexOfAux, lastIndexOfAux_eq_none '/' seg hseg]
    simp
  | cons x xs ih =>
    rw [List.cons_append]
    simp only [lastIndexOfAux]
    rw [ih]
    simp

theorem lastIndexOfChar_last_slash (pre seg : List Char) (hseg : '/' ∉ seg) :
    lastIndexOfChar '/' (pre ++ '/' :: seg) = (pre.length : Int) := by
  unfold lastIndexOfChar
  rw [lastIndexOfAux_last_slash pre seg hseg]

theorem getInferredInvalidationPaths_parent (u : Url) (pre seg : JSString)
    (hpath : u.pathname = pre ++ '/' :: seg) (hseg : '/' ∉ seg) :
    getInferredInvalidationPaths u =
      if pre = [] then [urlString u] else [urlString u, u.origin ++ pre] := by
  unfold getInferredInvalidationPaths
  rw [hpath, lastIndexOfChar_last_slash pre seg hseg]
  cases pre with
  | nil => simp
  | cons a as =>
    have hpos : (0 : Int) < (((a :: as).length : Nat) : Int) := by
      simp
    rw [if_pos hpos]
    rw [Int.toNat_natCast, List.take_left]

theorem schemeTail_append (s t : List Char) (h : schemeTail s = true) :
    schemeTail (s ++ t) = true := by
  induction s with
  | nil => exact absurd h (by decide)
  | cons c rest ih =>
    rw [List.cons_append]
    simp only [schemeTail] at h ⊢
    by_cases hc : c = ':'
    · simp [hc]
    · rw [if_neg hc] at h ⊢
      simp only [Bool.and_eq_true] at h
      obtain ⟨h1, h2⟩ := h
      simp [h1, ih h2]

theorem isAbsoluteUrl_append (o t : List Char) (h : isAbsoluteUrl o = true) :
    isAbsoluteUrl (o ++ t) = true := by
  cases o with
  | nil => exact absurd h (by decide)
  | cons c rest =>
    rw [List.cons_append]
    simp only [isAbsoluteUrl] at h ⊢
    simp only [Bool.and_eq_true] at h
    obtain ⟨h1, h2⟩ := h
    simp [h1, schemeTail_append rest t h2]

theorem resolvePath_of_absolute (origin p : JSString) (h : isAbsoluteUrl p = true) :
    resolvePath origin p = p := by
  rw [resolvePath, if_pos h]

theorem resolvePath_origin_append (base origin p : JSString)
    (h : isAbsoluteUrl origin = true) :
    resolvePath base (origin ++ p) = origin ++ p :=
  resolvePath_of_absolute base (origin ++ p) (isAbsoluteUrl_append origin p h)

/-- C1 (amended): cache-first. A fresh hit is returned with no network
call and the cache untouched. Otherwise the network is fetched (exactly
one call); a 2xx response is stored as a whole-entry replacement carrying
a fresh timestamp and returned. If the fetch throws and the cached entry
is stale, that in-memory entry is returned as offline fallback even when
it is retention-expired (the reactive cleanup then deletes it from the
store but the response is still served); when no stale entry exists the
original network error propagates unchanged. Consequently a first read on
an empty cache stores the 2xx network response and an immediate second
read within the TTL returns the identical payload with zero additional
network calls. -/
theorem claim_C1_amended_cache_first (now : Nat) (ttl maxAge : Int) (sttl : Option Int)
    (cached : Option JSResponse) (net : NetResult) :
    (∀ c, cached = some c → isFresh now c ttl = true →
      cacheFirstBranch ⟨now, ttl, sttl, maxAge⟩ cached net = ⟨.ok c, some c, 0⟩) ∧
    ((∀ c, cached = some c → isFresh now c ttl = false) →
      (cacheFirstBranch ⟨now, ttl, sttl, maxAge⟩ cached net).netCalls = 1) ∧
    (∀ nr, (∀ c, cached = some c → isFresh now c ttl = false) →
      net = .resp nr → respOk nr = true →
      (cacheFirstBranch ⟨now, ttl, sttl, maxAge⟩ cached net).result = .ok nr ∧
      (cacheFirstBranch ⟨now, ttl, sttl, maxAge⟩ cached net).cacheAfter
        = some (addTimestamp now nr) ∧
      getCacheTimestamp (addTimestamp now nr) = some (now : Int)) ∧
    (∀ e c, cached = some c → isFresh now c ttl = false → net = .err e →
      isStale now c ttl sttl = true →
      (cacheFirstBranch ⟨now, ttl, sttl, maxAge⟩ cached net).result = .ok c) ∧
    (∀ e, (∀ c, cached = some c →
        isFresh now c ttl = false ∧ isStale now c ttl sttl = false) → net = .err e →
      (cacheFirstBranch ⟨now, ttl, sttl, maxAge⟩ cached net).result = .err e) ∧
    (∀ (nr : JSResponse) (now₂ : Nat) (net₂ : NetResult),
      respOk nr = true → (now₂ : Int) - (now : Int) < ttl * 1000 →
      (cacheFirstBranch ⟨now, ttl, sttl, maxAge⟩ none (.resp nr)).cacheAfter
          = some (addTimestamp now nr) ∧
      cacheFirstBranch ⟨now₂, ttl, sttl, maxAge⟩ (some (addTimestamp now nr)) net₂
          = ⟨.ok (addTimestamp now nr), some (addTimestamp now nr), 0⟩ ∧
      (addTimestamp now nr).body = nr.body ∧
      (addTimestamp now nr).status = nr.status) := by
  refine ⟨?_, ?_, ?_, ?_, ?_, ?_⟩
  · intro c hc hf
    subst hc
    simp [cacheFirstBranch, hf]
  · intro hnf
    cases cached with
    | none =>
      cases net with
      | err e => rfl
      | resp nr =>
        by_cases hok : respOk nr <;> simp [cacheFirstBranch, hok]
    | some c =>
      have hf := hnf c rfl
      cases net with
      | err e =>
        by_cases hst : isStale now c ttl sttl <;> simp [cacheFirstBranch, hf, hst]
      | resp nr =>
        by_cases hok : respOk nr <;> simp [cacheFirstBranch, hf, hok]
  · intro nr hnf hnet hok
    subst hnet
    cases cached with
    | none =>
      exact ⟨by simp [cacheFirstBranch, hok], by simp [cacheFirstBranch, hok],
        getCacheTimestamp_addTimestamp now nr⟩
    | some c =>
      have hf := hnf c rfl
      exact ⟨by simp [cacheFirstBranch, hf, hok], by simp [cacheFirstBranch, hf, hok],
        getCacheTimestamp_addTimestamp now nr⟩
  · intro e c hc hf hnet hst
    subst hc
    subst hnet
    simp [cacheFirstBranch, hf, hst]
  · intro e hca hnet
    subst hnet
    cases cached with
    | none => rfl
    | some c =>
      obtain ⟨hf, hst⟩ := hca c rfl
      simp [cacheFirstBranch, hf, hst]
  · intro nr now₂ net₂ hok hlt
    have hfresh : isFresh now₂ (addTimestamp now nr) ttl = true := by
      rw [isFresh_addTimestamp]
      exact decide_eq_true hlt
    exact ⟨by simp [cacheFirstBranch, hok], by simp [cacheFirstBranch, hfresh], rfl, rfl⟩

/-- C1 counterexample: with a per-request stale TTL larger than the
retention bound, a cache-first offline fallback serves an entry that is
both stale and retention-expired — the claim says the network error
should propagate, the code returns the (just deleted) entry. The entry
below is 8000 s old with stale TTL 10000 s and retention bound 7200 s. -/
theorem claim_C1_counterexample :
    isStale 8000000 (mkEntry "cached" "0") 1 (some 10000) = true ∧
    isOlderThanMaxAge 8000000 (mkEntry "cached" "0") 7200 = true ∧
    cacheFirstBranch ⟨8000000, 1, some 10000, 7200⟩ (some (mkEntry "cached" "0")) (.err 42)
      = ⟨.ok (mkEntry "cached" "0"), none, 1⟩ ∧
    (cacheFirstBranch ⟨8000000, 1, some 10000, 7200⟩
        (some (mkEntry "cached" "0")) (.err 42)).result ≠ .err 42 := by
  decide

/-- C1 witness: the round trip at concrete inputs — the first read stores
the stamped response, the second read 1 s later (TTL 60 s) returns it
with zero network calls even though the network would fail. -/
theorem claim_C1_witness :
    (cacheFirstBranch ⟨1000, 60, some 3600, 7200⟩ none
        (.resp (mkEntry "data" "0"))).cacheAfter
      = some (addTimestamp 1000 (mkEntry "data" "0")) ∧
    cacheFirstBranch ⟨2000, 60, some 3600, 7200⟩
        (some (addTimestamp 1000 (mkEntry "data" "0"))) (.err 7)
      = ⟨.ok (addTimestamp 1000 (mkEntry "data" "0")),
          some (addTimestamp 1000 (mkEntry "data" "0")), 0⟩ ∧
    (addTimestamp 1000 (mkEntry "data" "0")).body = (mkEntry "data" "0").body ∧
    (addTimestamp 1000 (mkEntry "data" "0")).status = (mkEntry "data" "0").status :=
  (claim_C1_amended_cache_first 1000 60 7200 (some 3600) none
      (.resp (mkEntry "data" "0"))).2.2.2.2.2
    (mkEntry "data" "0") 2000 (.err 7) (by decide) (by decide)

/-- C2: network-first. The network is always attempted (exactly one call
in every case). A 2xx response is stored re-stamped and returned. When
the fetch throws: a retention-expired entry is deleted reactively and the
original error propagates; otherwise a fresh or stale entry is returned
as offline fallback; with no usable entry the original error propagates
unchanged. -/
theorem claim_C2_network_first (now : Nat) (ttl maxAge : Int) (sttl : Option Int)
    (cached : Option JSResponse) (net : NetResult) :
    ((networkFirstBranch ⟨now, ttl, sttl, maxAge⟩ cached net).netCalls = 1) ∧
    (∀ nr, net = .resp nr → respOk nr = true →
      networkFirstBranch ⟨now, ttl, sttl, maxAge⟩ cached net
          = ⟨.ok nr, some (addTimestamp now nr), 1⟩ ∧
      getCacheTimestamp (addTimestamp now nr) = some (now : Int)) ∧
    (∀ e c, net = .err e → cached = some c → isOlderThanMaxAge now c maxAge = true →
      networkFirstBranch ⟨now, ttl, sttl, maxAge⟩ cached net = ⟨.err e, none, 1⟩) ∧
    (∀ e c, net = .err e → cached = some c → isOlderThanMaxAge now c maxAge = false →
      (isFresh now c ttl = true ∨ isStale now c ttl sttl = true) →
      networkFirstBranch ⟨now, ttl, sttl, maxAge⟩ cached net = ⟨.ok c, some c, 1⟩) ∧
    (∀ e c, net = .err e → cached = some c → isOlderThanMaxAge now c maxAge = false →
      isFresh now c ttl = false → isStale now c ttl sttl = false →
      networkFirstBranch ⟨now, ttl, sttl, maxAge⟩ cached net = ⟨.err e, some c, 1⟩) ∧
    (∀ e, net = .err e → cached = none →
      networkFirstBranch ⟨now, ttl, sttl, maxAge⟩ cached net = ⟨.err e, none, 1⟩) := by
  refine ⟨?_, ?_, ?_, ?_, ?_, ?_⟩
  · cases net with
    | resp nr => by_cases hok : respOk nr <;> simp [networkFirstBranch, hok]
    | err e =>
      cases cached with
      | none => rfl
      | some c =>
        by_cases hexp : isOlderThanMaxAge now c maxAge
        · simp [networkFirstBranch, hexp]
        · by_cases hfs : isFresh now c ttl || isStale now c ttl sttl <;>
            simp [networkFirstBranch, hexp, hfs]
  · intro nr hnet hok
    subst hnet
    exact ⟨by simp [networkFirstBranch, hok], getCacheTimestamp_addTimestamp now nr⟩
  · intro e c hnet hc hexp
    subst hnet
    subst hc
    simp [networkFirstBranch, hexp]
  · intro e c hnet hc hexp hfs
    subst hnet
    subst hc
    rcases hfs with h | h <;> simp [networkFirstBranch, hexp, h]
  · intro e c hnet hc hexp hf hst
    subst hnet
    subst hc
    simp [networkFirstBranch, hexp, hf, hst]
  · intro e hnet hc
    subst hnet
    subst hc
    rfl

/-- C2 witness: at concrete inputs, a network failure over a fresh cached
entry (5 s old, TTL 60 s, retention 7200 s) returns the entry as offline
fallback with one network call. -/
theorem claim_C2_witness :
    networkFirstBranch ⟨5000, 60, some 3600, 7200⟩ (some (mkEntry "x" "0")) (.err 9)
      = ⟨.ok (mkEntry "x" "0"), some (mkEntry "x" "0"), 1⟩ :=
  (claim_C2_network_first 5000 60 7200 (some 3600) (some (mkEntry "x" "0"))
      (.err 9)).2.2.2.1 9 (mkEntry "x" "0") rfl rfl (by decide) (Or.inl (by decide))

/-- C3 (amended): stale-while-revalidate. A retention-expired entry is
deleted reactively and handled as a miss — even when its age is still
within the (header-enlarged) TTL or stale TTL. Otherwise: a fresh entry
is returned at once with no network activity; a stale entry is returned
at once while the detached background fetch is started, whose 2xx result
overwrites the entry with a fresh stamp and whose failure is swallowed;
an entry neither fresh nor stale (or absent) goes to the synchronous
network path, where a 2xx response is stored and returned and a thrown
fetch propagates unchanged with no offline fallback. -/
theorem claim_C3_amended_swr (now : Nat) (ttl maxAge : Int) (sttl : Option Int)
    (cached : Option JSResponse) (net : NetResult) :
    (∀ c, cached = some c → isOlderThanMaxAge now c maxAge = false →
      isFresh now c ttl = true →
      swrBranch ⟨now, ttl, sttl, maxAge⟩ cached net = ⟨.ok c, some c, 0, false⟩) ∧
    (∀ c, cached = some c → isOlderThanMaxAge now c maxAge = false →
      isStale now c ttl sttl = true →
      swrBranch ⟨now, ttl, sttl, maxAge⟩ cached net = ⟨.ok c, some c, 0, true⟩) ∧
    (∀ (bgNow : Nat) (st : Option JSResponse) (nr : JSResponse), respOk nr = true →
      swrApplyBackground bgNow st (.resp nr) = some (addTimestamp bgNow nr) ∧
      getCacheTimestamp (addTimestamp bgNow nr) = some (bgNow : Int)) ∧
    (∀ (bgNow : Nat) (st : Option JSResponse) (e : Nat),
      swrApplyBackground bgNow st (.err e) = st) ∧
    (∀ c, cached = some c → isOlderThanMaxAge now c maxAge = true →
      swrBranch ⟨now, ttl, sttl, maxAge⟩ cached net
        = swrNetworkPath ⟨now, ttl, sttl, maxAge⟩ none net) ∧
    (∀ c, cached = some c → isOlderThanMaxAge now c maxAge = false →
      isFresh now c ttl = false → isStale now c ttl sttl = false →
      swrBranch ⟨now, ttl, sttl, maxAge⟩ cached net
        = swrNetworkPath ⟨now, ttl, sttl, maxAge⟩ (some c) net) ∧
    (cached = none →
      swrBranch ⟨now, ttl, sttl, maxAge⟩ cached net
        = swrNetworkPath ⟨now, ttl, sttl, maxAge⟩ none net) ∧
    (∀ base nr, net = .resp nr → respOk nr = true →
      swrNetworkPath ⟨now, ttl, sttl, maxAge⟩ base net
        = ⟨.ok nr, some (addTimestamp now nr), 1, false⟩ ∧
      getCacheTimestamp (addTimestamp now nr) = some (now : Int)) ∧
    (∀ base e, net = .err e →
      swrNetworkPath ⟨now, ttl, sttl, maxAge⟩ base net = ⟨.err e, base, 1, false⟩) := by
  refine ⟨?_, ?_, ?_, ?_, ?_, ?_, ?_, ?_, ?_⟩
  · intro c hc hexp hf
    subst hc
    have hst := isStale_false_of_isFresh now c ttl sttl hf
    simp [swrBranch, hexp, hf, hst]
  · intro c hc hexp hst
    subst hc
    simp [swrBranch, hexp, hst]
  · intro bgNow st nr hok
    exact ⟨by simp [swrApplyBackground, hok], getCacheTimestamp_addTimestamp bgNow nr⟩
  · intro bgNow st e
    rfl
  · intro c hc hexp
    subst hc
    simp [swrBranch, hexp]
  · intro c hc hexp hf hst
    subst hc
    simp [swrBranch, hexp, hf, hst]
  · intro hc
    subst hc
    rfl
  · intro base nr hnet hok
    subst hnet
    exact ⟨by simp [swrNetworkPath, hok], getCacheTimestamp_addTimestamp now nr⟩
  · intro base e hnet
    subst hnet
    rfl

/-- C3 counterexample: with a per-request TTL larger than the retention
bound, an entry can be fresh yet retention-expired (here 8000 s old, TTL
10000 s, bound 7200 s). The claim says a fresh entry is returned with no
network activity; the code deletes it and fetches synchronously, so the
network error surfaces. -/
theorem claim_C3_counterexample :
    isFresh 8000000 (mkEntry "c" "0") 10000 = true ∧
    isOlderThanMaxAge 8000000 (mkEntry "c" "0") 7200 = true ∧
    swrBranch ⟨8000000, 10000, some 3600, 7200⟩ (some (mkEntry "c" "0")) (.err 5)
      = ⟨.err 5, none, 1, false⟩ ∧
    (swrBranch ⟨8000000, 10000, some 3600, 7200⟩ (some (mkEntry "c" "0")) (.err 5)).result
      ≠ .ok (mkEntry "c" "0") := by
  decide

/-- C3 witness: a stale entry (5 s old, TTL 1 s, stale TTL 3600 s) is
returned at once with the background fetch triggered; the background
success overwrites the entry freshly stamped, the background failure is
swallowed. -/
theorem claim_C3_witness :
    swrBranch ⟨5000, 1, some 3600, 7200⟩ (some (mkEntry "s" "0")) (.err 3)
      = ⟨.ok (mkEntry "s" "0"), some (mkEntry "s" "0"), 0, true⟩ ∧
    swrApplyBackground 6000 (some (mkEntry "s" "0")) (.resp (mkEntry "n" "0"))
      = some (addTimestamp 6000 (mkEntry "n" "0")) ∧
    swrApplyBackground 6000 (some (mkEntry "s" "0")) (.err 4) = some (mkEntry "s" "0") := by
  have h := claim_C3_amended_swr 5000 1 7200 (some 3600) (some (mkEntry "s" "0")) (.err 3)
  exact ⟨h.2.1 (mkEntry "s" "0") rfl (by decide) (by decide),
    (h.2.2.1 6000 (some (mkEntry "s" "0")) (mkEntry "n" "0") (by decide)).1,
    h.2.2.2.1 6000 (some (mkEntry "s" "0")) 4⟩

/-- C4: across every strategy and the background revalidation path, a
response is written to the cache only when its status is 2xx, and every
write is a whole-entry replacement — the entry afterwards is either the
prior entry unchanged, absent, or the re-stamped 2xx network response
carrying the newly set creation-timestamp header. -/
theorem claim_C4_writes_only_2xx :
    (∀ (ctx : StratCtx) (cached : Option JSResponse) (net : NetResult) (e : JSResponse),
      (cacheFirstBranch ctx cached net).cacheAfter = some e →
      cached = some e ∨ ∃ nr, net = .resp nr ∧ 200 ≤ nr.status ∧ nr.status ≤ 299 ∧
        e = addTimestamp ctx.now nr ∧ getCacheTimestamp e = some (ctx.now : Int)) ∧
    (∀ (ctx : StratCtx) (cached : Option JSResponse) (net : NetResult) (e : JSResponse),
      (networkFirstBranch ctx cached net).cacheAfter = some e →
      cached = some e ∨ ∃ nr, net = .resp nr ∧ 200 ≤ nr.status ∧ nr.status ≤ 299 ∧
        e = addTimestamp ctx.now nr ∧ getCacheTimestamp e = some (ctx.now : Int)) ∧
    (∀ (ctx : StratCtx) (cached : Option JSResponse) (net : NetResult) (e : JSResponse),
      (swrBranch ctx cached net).cacheAfter = some e →
      cached = some e ∨ ∃ nr, net = .resp nr ∧ 200 ≤ nr.status ∧ nr.status ≤ 299 ∧
        e = addTimestamp ctx.now nr ∧ getCacheTimestamp e = some (ctx.now : Int)) ∧
    (∀ (bgNow : Nat) (st : Option JSResponse) (bgNet : NetResult) (e : JSResponse),
      swrApplyBackground bgNow st bgNet = some e →
      st = some e ∨ ∃ nr, bgNet = .resp nr ∧ 200 ≤ nr.status ∧ nr.status ≤ 299 ∧
        e = addTimestamp bgNow nr ∧ getCacheTimestamp e = some (bgNow : Int)) := by
  have hok2 : ∀ nr : JSResponse, respOk nr = true → 200 ≤ nr.status ∧ nr.status ≤ 299 := by
    intro nr h
    simpa [respOk] using h
  refine ⟨?_, ?_, ?_, ?_⟩
  · intro ctx cached net e h
    rcases ctx with ⟨now, ttl, sttl, maxAge⟩
    cases cached with
    | none =>
      cases net with
      | err e2 => exact absurd h (by simp [cacheFirstBranch])
      | resp nr =>
        by_cases hop : respOk nr
        · simp [cacheFirstBranch, hop] at h
          exact Or.inr ⟨nr, rfl, (hok2 nr hop).1, (hok2 nr hop).2,
            h.symm, h ▸ getCacheTimestamp_addTimestamp now nr⟩
        · exact absurd h (by simp [cacheFirstBranch, hop])
    | some c =>
      by_cases hf : isFresh now c ttl
      · simp [cacheFirstBranch, hf] at h
        exact Or.inl (by rw [h])
      · by_cases hexp : isOlderThanMaxAge now c maxAge
        · cases net with
          | err e2 =>
            by_cases hst : isStale now c ttl sttl <;>
              exact absurd h (by simp [cacheFirstBranch, hf, hexp, hst])
          | resp nr =>
            by_cases hop : respOk nr
            · simp [cacheFirstBranch, hf, hop] at h
              exact Or.inr ⟨nr, rfl, (hok2 nr hop).1, (hok2 nr hop).2,
                h.symm, h ▸ getCacheTimestamp_addTimestamp now nr⟩
            · exact absurd h (by simp [cacheFirstBranch, hf, hexp, hop])
        · cases net with
          | err e2 =>
            by_cases hst : isStale now c ttl sttl <;>
              (simp [cacheFirstBranch, hf, hexp, hst] at h; exact Or.inl (by rw [h]))
          | resp nr =>
            by_cases hop : respOk nr
            · simp [cacheFirstBranch, hf, hop] at h
              exact Or.inr ⟨nr, rfl, (hok2 nr hop).1, (hok2 nr hop).2,
                h.symm, h ▸ getCacheTimestamp_addTimestamp now nr⟩
            · simp [cacheFirstBranch, hf, hexp, hop] at h
              exact Or.inl (by rw [h])
  · intro ctx cached net e h
    rcases ctx with ⟨now, ttl, sttl, maxAge⟩
    cases net with
    | resp nr =>
      by_cases hop : respOk nr
      · simp [networkFirstBranch, hop] at h
        exact Or.inr ⟨nr, rfl, (hok2 nr hop).1, (hok2 nr hop).2,
          h.symm, h ▸ getCacheTimestamp_addTimestamp now nr⟩
      · simp [networkFirstBranch, hop] at h
        exact Or.inl h
    | err e2 =>
      cases cached with
      | none => exact absurd h (by simp [networkFirstBranch])
      | some c =>
        by_cases hexp : isOlderThanMaxAge now c maxAge
        · exact absurd h (by simp [networkFirstBranch, hexp])
        · by_cases hfs : isFresh now c ttl || isStale now c ttl sttl <;>
            (simp [networkFirstBranch, hexp, hfs] at h; exact Or.inl (by rw [h]))
  · intro ctx cached net e h
    rcases ctx with ⟨now, ttl, sttl, maxAge⟩
    have hnp : ∀ base : Option JSResponse,
        (swrNetworkPath ⟨now, ttl, sttl, maxAge⟩ base net).cacheAfter = some e →
        base = some e ∨ ∃ nr, net = .resp nr ∧ 200 ≤ nr.status ∧ nr.status ≤ 299 ∧
          e = addTimestamp now nr ∧ getCacheTimestamp e = some (now : Int) := by
      intro base hb
      cases net with
      | err e2 =>
        simp [swrNetworkPath] at hb
        exact Or.inl hb
      | resp nr =>
        by_cases hop : respOk nr
        · simp [swrNetworkPath, hop] at hb
          exact Or.inr ⟨nr, rfl, (hok2 nr hop).1, (hok2 nr hop).2,
            hb.symm, hb ▸ getCacheTimestamp_addTimestamp now nr⟩
        · simp [swrNetworkPath, hop] at hb
          exact Or.inl hb
    cases cached with
    | none =>
      rcases hnp none (by simpa [swrBranch] using h) with h1 | h1
      · exact absurd h1 (by simp)
      · exact Or.inr h1
    | some c =>
      by_cases hexp : isOlderThanMaxAge now c maxAge
      · rcases hnp none (by simpa [swrBranch, hexp] using h) with h1 | h1
        · exact absurd h1 (by simp)
        · exact Or.inr h1
      · by_cases hfs : isFresh now c ttl || isStale now c ttl sttl
        · simp [swrBranch, hexp, hfs] at h
          exact Or.inl (by rw [h])
        · rcases hnp (some c) (by simpa [swrBranch, hexp, hfs] using h) with h1 | h1
          · exact Or.inl h1
          · exact Or.inr h1
  · intro bgNow st bgNet e h
    cases bgNet with
    | err e2 =>
      simp [swrApplyBackground] at h
      exact Or.inl (by rw [h])
    | resp nr =>
      by_cases hop : respOk nr
      · simp [swrApplyBackground, hop] at h
        exact Or.inr ⟨nr, rfl, (hok2 nr hop).1, (hok2 nr hop).2,
          h.symm, h ▸ getCacheTimestamp_addTimestamp bgNow nr⟩
      · simp [swrApplyBackground, hop] at h
        exact Or.inl (by rw [h])

/-- C4 witness: the write performed by a cache-first miss at a concrete
input is the re-stamped 2xx network response. -/
theorem claim_C4_witness :
    none = some (addTimestamp 1000 (mkEntry "d" "0")) ∨
    ∃ nr, NetResult.resp (mkEntry "d" "0") = .resp nr ∧ 200 ≤ nr.status ∧
      nr.status ≤ 299 ∧ addTimestamp 1000 (mkEntry "d" "0") = addTimestamp 1000 nr ∧
      getCacheTimestamp (addTimestamp 1000 (mkEntry "d" "0")) = some (1000 : Int) :=
  claim_C4_writes_only_2xx.1 ⟨1000, 60, some 3600, 7200⟩ none
    (.resp (mkEntry "d" "0")) (addTimestamp 1000 (mkEntry "d" "0")) rfl

/-- C6: the invalidation target set. With explicit directives present
they are the entire set (each resolved against the request's origin),
inferred targets being discarded; with no directives, inference enabled
and a mutating method, the set is exactly the request URL plus the
parent-collection URL obtained by stripping the final path segment, with
no parent for root or single-segment paths; with no directives and
inference disabled the handler never takes the invalidation branch. The
pathname is decomposed as `pre ++ '/' :: seg` around its last slash. -/
theorem claim_C6_invalidation_targets (cfg : Config) (req : RequestModel)
    (pre seg : JSString) (hpath : req.url.pathname = pre ++ '/' :: seg)
    (hseg : '/' ∉ seg) (horig : isAbsoluteUrl req.url.origin = true) :
    (getAllHeaders req.headers CACHE_INVALIDATE_HEADER ≠ [] →
      computeInvalidationTargets cfg req
          (getAllHeaders req.headers CACHE_INVALIDATE_HEADER) (isMutationMethod req.method)
        = (getAllHeaders req.headers CACHE_INVALIDATE_HEADER).map
            (resolvePath req.url.origin)) ∧
    (getAllHeaders req.headers CACHE_INVALIDATE_HEADER = [] →
      cfg.inferInvalidation = true → isMutationMethod req.method = true →
      computeInvalidationTargets cfg req
          (getAllHeaders req.headers CACHE_INVALIDATE_HEADER) (isMutationMethod req.method)
        = if pre = [] then [urlString req.url]
          else [urlString req.url, req.url.origin ++ pre]) ∧
    (getAllHeaders req.headers CACHE_INVALIDATE_HEADER = [] →
      cfg.inferInvalidation = false →
      ∀ (swOrigin : JSString) (targets : List JSString),
        handleRequestDecision cfg swOrigin req ≠ .invalidateThenNetwork targets) := by
  have habsUrl : isAbsoluteUrl (urlString req.url) = true := by
    rw [urlString, List.append_assoc]
    exact isAbsoluteUrl_append req.url.origin _ horig
  refine ⟨?_, ?_, ?_⟩
  · intro hne
    unfold computeInvalidationTargets
    rw [if_neg (fun hcond => hne hcond.1)]
  · intro h0 hinf hmut
    unfold computeInvalidationTargets
    rw [if_pos ⟨h0, hinf, hmut⟩, h0, List.nil_append,
        getInferredInvalidationPaths_parent req.url pre seg hpath hseg]
    by_cases hpre : pre = []
    · rw [if_pos hpre, List.map_cons, List.map_nil,
          resolvePath_of_absolute _ _ habsUrl]
    · rw [if_neg hpre, List.map_cons, List.map_cons, List.map_nil,
          resolvePath_of_absolute _ _ habsUrl,
          resolvePath_origin_append req.url.origin req.url.origin pre horig]
  · intro h0 hinf swOrigin targets
    unfold handleRequestDecision
    by_cases hc : (getHeader req.headers CACHE_CLEAR_HEADER).isSome
    · rw [if_pos hc]
      simp
    · rw [if_neg hc]
      have hcond : ¬ (0 < (getAllHeaders req.headers CACHE_INVALIDATE_HEADER).length ∨
          (cfg.inferInvalidation = true ∧ isMutationMethod req.method = true)) := by
        rw [h0, hinf]
        simp
      rw [if_neg hcond]
      split_ifs <;> try simp
      cases getTTL req.headers cfg.defaultTTLSeconds <;> simp
      split_ifs <;> simp

/-- C6 witness: a POST to `/api/users/123` with inference enabled and no
directives targets exactly the URL itself and its parent collection. -/
theorem claim_C6_witness :
    computeInvalidationTargets cfgW reqMut
        (getAllHeaders reqMut.headers CACHE_INVALIDATE_HEADER) (isMutationMethod reqMut.method)
      = [urlString reqMut.url, reqMut.url.origin ++ js "/api/users"] := by
  have h := (claim_C6_invalidation_targets cfgW reqMut (js "/api/users") (js "123")
      (by decide) (by decide) (by decide)).2.1 rfl rfl (by decide)
  rw [h]
  simp [js]

/-- C8 (amended): a same-origin GET request that carries no clear or
invalidation directives and whose TTL directive parses to zero, a
negative number, or not a number at all is not handled: the TTL resolves
to "caching disabled" (the configured default does NOT apply), the
handler returns the not-handled sentinel, and on that path it performs
no network call and never touches the response store. -/
theorem claim_C8_amended_ttl_optout (cfg : Config) (swOrigin : JSString)
    (req : RequestModel)
    (hclear : getHeader req.headers CACHE_CLEAR_HEADER = none)
    (hinv : getAllHeaders req.headers CACHE_INVALIDATE_HEADER = [])
    (hmethod : req.method = js "GET")
    (v : JSString) (httl : getHeader req.headers CACHE_TTL_HEADER = some v)
    (hval : jsParseInt v = none ∨ ∃ k, jsParseInt v = some k ∧ k ≤ 0) :
    handleRequestDecision cfg swOrigin req = .notHandled ∧
    getTTL req.headers cfg.defaultTTLSeconds = none ∧
    (∀ k, decisionNetCalls (handleRequestDecision cfg swOrigin req) k = 0) ∧
    decisionTouchesStore (handleRequestDecision cfg swOrigin req) = false := by
  have hmut : isMutationMethod (js "GET") = false := by decide
  have hgt : getTTL req.headers cfg.defaultTTLSeconds = none := by
    unfold getTTL
    rw [httl]
    show (match jsParseInt v with
      | none => none
      | some ttl => if ttl ≤ 0 then none else some ttl) = none
    rcases hval with h | ⟨k, hk, hk0⟩
    · rw [h]
    · rw [hk]
      simp [hk0]
  have hmain : handleRequestDecision cfg swOrigin req = .notHandled := by
    by_cases horr : req.url.origin ≠ swOrigin
    · simp [handleRequestDecision, hclear, hinv, hmethod, hmut, horr]
    · simp [handleRequestDecision, hclear, hinv, hmethod, hmut, horr, httl, hgt]
  refine ⟨hmain, hgt, ?_, ?_⟩
  · intro k
    rw [hmain]
    rfl
  · rw [hmain]
    rfl

/-- C8 counterexample: a negative TTL directive is not treated as absent.
With default TTL 300, `getTTL` returns "disabled" rather than 300 and the
in-scope GET is not handled, where the claim predicts a normal dispatch
under the default TTL. -/
theorem claim_C8_counterexample :
    getTTL [(CACHE_TTL_HEADER, js "-10")] 300 = none ∧
    getTTL [(CACHE_TTL_HEADER, js "-10")] 300 ≠ some 300 ∧
    handleRequestDecision cfgW (js "https://example.com") reqTTLneg = .notHandled ∧
    handleRequestDecision cfgW (js "https://example.com") reqTTLneg
      ≠ .dispatch Strategy.cacheFirst 300 (some 3600) := by
  decide

/-- C8 witness: a TTL directive of `0` on an in-scope same-origin GET
yields the not-handled sentinel even though the URL matches scope. -/
theorem claim_C8_witness :
    matchesScope reqTTL0.url cfgW.scope cfgW.defaultTTLSeconds = true ∧
    handleRequestDecision cfgW (js "https://example.com") reqTTL0 = .notHandled ∧
    getTTL reqTTL0.headers cfgW.defaultTTLSeconds = none := by
  have h := claim_C8_amended_ttl_optout cfgW (js "https://example.com") reqTTL0
    (by decide) (by decide) (by decide) (js "0") (by decide)
    (Or.inr ⟨0, by decide, by decide⟩)
  exact ⟨by decide, h.1, h.2.1⟩

end Swimple

